import Mathlib

/-
Verification of the table-parsing / pagination engine of the APA stat
scraper (src/actions/extract_player.py, src/actions/team_data_extractor.py,
src/actions/extract_team.py).

The Python code is shallowly embedded as executable Lean definitions:
Python `str` becomes `String` (reasoned about through its `List Char`
data), Python `float` becomes `ℚ` (the arithmetic performed by the code
stays well inside the range where IEEE doubles are exact enough that the
comparisons made here agree), `None`-able fields become `Option`, and a
missing dictionary key is identified with a key stored as `None` (the
code only ever observes fields through `dict.get`, which cannot
distinguish the two).  DOM-effectful parts (clicking, scrolling, the
`status`/`team_id` fields copied from CLI context) are factored out: the
loops consume their per-iteration scan results as explicit input
sequences.
-/

set_option maxRecDepth 8000

/-! ## Python string primitives -/

/-- Python `str.isspace` / `\s` on the ASCII range used by the scraped pages. -/
def isSpaceChar (c : Char) : Bool := c.isWhitespace

/-- Python `str.isdigit` / `\d` on the ASCII range used by the scraped pages. -/
def isDigitChar (c : Char) : Bool := c.isDigit

/-- `str.strip()` on the character list of a string. -/
def stripL (l : List Char) : List Char :=
  ((l.dropWhile isSpaceChar).reverse.dropWhile isSpaceChar).reverse

/-- Python `str.strip()`. -/
def pyStrip (s : String) : String := String.mk (stripL s.data)

def digitVal (c : Char) : Nat := c.toNat - 48

/-- `int(...)` of a string of decimal digits. -/
def natOfDigits (l : List Char) : Nat :=
  l.foldl (fun acc c => 10 * acc + digitVal c) 0

/-- Python `str.isdigit()`: nonempty and all digits. -/
def pyIsdigitL (l : List Char) : Bool := !l.isEmpty && l.all isDigitChar

def pyIsdigit (s : String) : Bool := pyIsdigitL s.data

/-- Does `hay` start with `needle` (exact characters)? -/
def leadsEq : List Char → List Char → Bool
  | [], _ => true
  | _ :: _, [] => false
  | p :: ps, c :: cs => p == c && leadsEq ps cs

/-- Python substring test `needle in hay` on character lists. -/
def occursL (needle : List Char) : List Char → Bool
  | [] => needle.isEmpty
  | c :: t => leadsEq needle (c :: t) || occursL needle t

/-- Python substring test `needle in hay`. -/
def occursIn (needle hay : String) : Bool := occursL needle.data hay.data

/-- Python `str.lower()` (character-wise, ASCII range). -/
def lowerStr (s : String) : String := String.mk (s.data.map Char.toLower)

/-- Case-insensitive prefix match; returns the matched slice of the text
(original case, as a Python regex group would) and the rest. -/
def leadsCI : List Char → List Char → Option (List Char × List Char)
  | [], t => some ([], t)
  | _ :: _, [] => none
  | p :: ps, c :: cs =>
    if p.toLower == c.toLower then
      match leadsCI ps cs with
      | some (m, r) => some (c :: m, r)
      | none => none
    else none

/-- `str.split(sep)` on character lists (single-character separator). -/
def splitChar (sep : Char) : List Char → List (List Char)
  | [] => [[]]
  | c :: t =>
    let r := splitChar sep t
    if c == sep then [] :: r
    else
      match r with
      | h :: t' => (c :: h) :: t'
      | [] => [[c]]

/-- Decimal representation of a natural number (model of Python `str(int)`);
structural fuel keeps it kernel-reducible. -/
def natToDigitsRev : Nat → Nat → List Char
  | 0, _ => []
  | fuel + 1, n => if n = 0 then [] else Char.ofNat (48 + n % 10) :: natToDigitsRev fuel (n / 10)

def natToStr (n : Nat) : String :=
  if n = 0 then "0" else String.mk (natToDigitsRev n n).reverse

/-! ## Python `round` (banker's rounding, as used on 1-decimal floats) -/

/-- Round a rational to the nearest integer, ties to even (CPython `round`). -/
def roundHalfEven (q : ℚ) : ℤ :=
  if q - (⌊q⌋ : ℚ) < 1/2 then ⌊q⌋
  else if 1/2 < q - (⌊q⌋ : ℚ) then ⌊q⌋ + 1
  else if ⌊q⌋ % 2 = 0 then ⌊q⌋ else ⌊q⌋ + 1

/-- Python `round(x, 1)`. -/
def pyRound1 (q : ℚ) : ℚ := (roundHalfEven (10 * q) : ℚ) / 10

/-! ## Regex fragments used by the parsers

Each `...At` function decides a match anchored at the start of the list;
`searchFor` scans for the leftmost position with a match, exactly as
`re.search` does.  Backtracking never helps for these patterns (a shorter
`\d+` always leaves a digit where a non-digit is required), so maximal
munch is faithful. -/

def searchFor (f : List Char → Option α) : List Char → Option α
  | [] => f []
  | c :: t =>
    match f (c :: t) with
    | some x => some x
    | none => searchFor f t

def digitsSplit (l : List Char) : List Char × List Char :=
  (l.takeWhile isDigitChar, l.dropWhile isDigitChar)

/-- `20\d{2}` anchored match: the four year characters and the rest. -/
def yearAt : List Char → Option (List Char × List Char)
  | a :: b :: c :: d :: r =>
    if a == '2' && b == '0' && isDigitChar c && isDigitChar d then some ([a, b, c, d], r)
    else none
  | _ => none

/-- `re.search(r'20\d{2}', ...)` returning `int(match.group())`. -/
def yearValAt (l : List Char) : Option Nat :=
  match yearAt l with
  | some (y, _) => some (natOfDigits y)
  | none => none

/-- One alternative of `(Fall|Spring|Summer|Winter)\s*(20\d{2})` anchored:
matched word slice, year digits, rest. -/
def seasonAtWord (w : String) (l : List Char) : Option (List Char × List Char × List Char) :=
  match leadsCI w.data l with
  | none => none
  | some (m, r1) =>
    let r2 := r1.dropWhile isSpaceChar
    match yearAt r2 with
    | some (y, r3) => some (m, y, r3)
    | none => none

/-- `(Fall|Spring|Summer|Winter)\s*(20\d{2})` anchored (alternation order
as in the source regex, case-insensitive). -/
def seasonAt (l : List Char) : Option (List Char × List Char × List Char) :=
  match seasonAtWord "Fall" l with
  | some x => some x
  | none =>
    match seasonAtWord "Spring" l with
    | some x => some x
    | none =>
      match seasonAtWord "Summer" l with
      | some x => some x
      | none => seasonAtWord "Winter" l

/-- `re.search` for the season pattern: text before the match, word slice,
year digits, text after the match. -/
def seasonSearch : List Char → Option (List Char × List Char × List Char × List Char)
  | [] => none
  | c :: t =>
    match seasonAt (c :: t) with
    | some (w, y, r) => some ([], w, y, r)
    | none =>
      match seasonSearch t with
      | some (bef, w, y, r) => some (c :: bef, w, y, r)
      | none => none

/-- `(Captain|Co-Captain|Member)` anchored, alternation order as in the
source regex, case-insensitive. -/
def roleAt (l : List Char) : Option (List Char × List Char) :=
  match leadsCI "Captain".data l with
  | some x => some x
  | none =>
    match leadsCI "Co-Captain".data l with
    | some x => some x
    | none => leadsCI "Member".data l

/-- `re.search` for the role pattern: before, matched slice, after. -/
def roleSearch : List Char → Option (List Char × List Char × List Char)
  | [] => none
  | c :: t =>
    match roleAt (c :: t) with
    | some (m, r) => some ([], m, r)
    | none =>
      match roleSearch t with
      | some (bef, m, r) => some (c :: bef, m, r)
      | none => none

/-- `(\d+(?:\.\d+)?)%` anchored: the captured number as a rational. -/
def percentAt (l : List Char) : Option ℚ :=
  let (d1, r1) := digitsSplit l
  if d1.isEmpty then none
  else
    match r1 with
    | '.' :: r2 =>
      let (d2, r3) := digitsSplit r2
      if d2.isEmpty then none
      else
        match r3 with
        | '%' :: _ => some ((natOfDigits d1 : ℚ) + (natOfDigits d2 : ℚ) / ((10 : ℚ) ^ d2.length))
        | _ => none
    | '%' :: _ => some ((natOfDigits d1 : ℚ))
    | _ => none

/-- `(\d+\.?\d*)%` anchored (the team_data_extractor variant of the
win-percentage regex; it accepts forms like `12.%`). -/
def percentAtTde (l : List Char) : Option ℚ :=
  let (d1, r1) := digitsSplit l
  if d1.isEmpty then none
  else
    match r1 with
    | '.' :: r2 =>
      let (d2, r3) := digitsSplit r2
      match r3 with
      | '%' :: _ => some ((natOfDigits d1 : ℚ) + (natOfDigits d2 : ℚ) / ((10 : ℚ) ^ d2.length))
      | _ => none
    | '%' :: _ => some ((natOfDigits d1 : ℚ))
    | _ => none

/-- `(\d+(?:\.\d+)?)` anchored: a bare number (PPM / PA cells). -/
def numberAt (l : List Char) : Option ℚ :=
  let (d1, r1) := digitsSplit l
  if d1.isEmpty then none
  else
    match r1 with
    | '.' :: r2 =>
      let (d2, _) := digitsSplit r2
      if d2.isEmpty then some ((natOfDigits d1 : ℚ))
      else some ((natOfDigits d1 : ℚ) + (natOfDigits d2 : ℚ) / ((10 : ℚ) ^ d2.length))
    | _ => some ((natOfDigits d1 : ℚ))

/-- `(\d+(?:st|nd|rd|th))` anchored: the matched slice. -/
def ordinalAt (l : List Char) : Option (List Char) :=
  let (d1, r1) := digitsSplit l
  if d1.isEmpty then none
  else
    match r1 with
    | a :: b :: _ =>
      if (a == 's' && b == 't') || (a == 'n' && b == 'd') ||
         (a == 'r' && b == 'd') || (a == 't' && b == 'h') then some (d1 ++ [a, b])
      else none
    | _ => none

/-- Match length of `\d+(?:\.\d+)?%` anchored (for `re.sub`). -/
def percentLenAt (l : List Char) : Option Nat :=
  let (d1, r1) := digitsSplit l
  if d1.isEmpty then none
  else
    match r1 with
    | '.' :: r2 =>
      let (d2, r3) := digitsSplit r2
      if d2.isEmpty then none
      else
        match r3 with
        | '%' :: _ => some (d1.length + 1 + d2.length + 1)
        | _ => none
    | '%' :: _ => some (d1.length + 1)
    | _ => none

/-- Match length of `\d+(?:st|nd|rd|th)` anchored (for `re.sub`). -/
def ordinalLenAt (l : List Char) : Option Nat :=
  (ordinalAt l).map List.length

/-- `re.sub(pattern, '', text)`: delete every non-overlapping match, scanning
left to right.  Structural fuel (initialised to the text length) keeps the
definition kernel-reducible; a match always consumes at least one character. -/
def subAllGo (m : List Char → Option Nat) : Nat → List Char → List Char
  | _, [] => []
  | 0, l => l
  | fuel + 1, c :: t =>
    match m (c :: t) with
    | some k => if k = 0 then c :: subAllGo m fuel t else subAllGo m fuel ((c :: t).drop k)
    | none => c :: subAllGo m fuel t

def subAll (m : List Char → Option Nat) (l : List Char) : List Char :=
  subAllGo m l.length l

/-! ## Data model

`TeamRecord` as built by the row parsers: every field is written at most
once, so the sequential dict construction of the Python code is rendered
as a single record literal whose fields carry the per-cell conditions.
An `Option` value of `none` is a key that was never written (or written
as Python `None`); the code only reads fields via `dict.get`. -/

structure TeamData where
  name : Option String := none
  season : Option String := none
  role : Option String := none
  skill_level : Option Nat := none
  matches_played : Option Nat := none
  matches_won : Option Nat := none
  win_percentage : Option ℚ := none
  mvp_rank : Option String := none
deriving DecidableEq

structure PlayerData where
  name : Option String := none
  member_id : Option String := none
  skill_level : Option Nat := none
  matches_won : Option Nat := none
  matches_played : Option Nat := none
  win_percentage : Option ℚ := none
  ppm : Option ℚ := none
  pa : Option ℚ := none
deriving DecidableEq

/-! ## Cell Parser: 6-column team rows

`extract_player._extract_team_data_from_row` (extract_player.py:645-719).
Cell 0 holds name+season+role concatenated; the season match is excised
from the middle of the text, then the role match is excised, and what
remains (stripped) is the name.  Cells 1-3 are all-digit stats, cell 4 a
percentage, cell 5 an MVP rank unless it is the `-` placeholder.  When
played and won are both present and played > 0, the win percentage is
recomputed as `round(won / played * 100, 1)`, overriding the parsed one. -/

/-- Cell 0 processing shared by both 6-column team-row parsers: returns
(season?, role?, name?).  `name` is only written when the cell text is
truthy (non-empty), mirroring `if team_cell:`. -/
def teamCellParse (c0 : String) : Option String × Option String × Option String :=
  if c0 = "" then (none, none, none)
  else
    let (season?, rest) :=
      match seasonSearch c0.data with
      | some (bef, w, y, aft) => (some (String.mk w ++ " " ++ String.mk y), bef ++ aft)
      | none => (none, c0.data)
    let (role?, rest2) :=
      match roleSearch rest with
      | some (bef, m, aft) => (some (String.mk m), bef ++ aft)
      | none => (none, rest)
    (season?, role?, some (String.mk (stripL rest2)))

/-- `if cell and cell.strip().isdigit(): int(cell.strip())`. -/
def digitCellParse (c : String) : Option Nat :=
  if c ≠ "" && pyIsdigit (pyStrip c) then some (natOfDigits (pyStrip c).data) else none

def epExtractTeamDataFromRow (cells : List String) : Option TeamData :=
  if cells.length < 6 then none
  else
    let (season?, role?, name?) := teamCellParse (cells.getD 0 "")
    let skill? := digitCellParse (cells.getD 1 "")
    let played? := digitCellParse (cells.getD 2 "")
    let won? := digitCellParse (cells.getD 3 "")
    let winParsed? :=
      if cells.getD 4 "" ≠ "" then searchFor percentAt (cells.getD 4 "").data else none
    let mvp? :=
      if cells.getD 5 "" ≠ "" && pyStrip (cells.getD 5 "") ≠ "-" then
        some (pyStrip (cells.getD 5 "")) else none
    -- `if team_data.get('matches_played') and team_data.get('matches_won') is not None:`
    -- (truthy played means present and non-zero) `if played > 0:` recompute with round(.., 1)
    let win? :=
      match played?, won? with
      | some p, some w =>
        if 0 < p then some (pyRound1 ((w : ℚ) / (p : ℚ) * 100)) else winParsed?
      | _, _ => winParsed?
    -- `return team_data if team_data.get('name') else None`
    match name? with
    | some n => if n ≠ "" then
        some ⟨some n, season?, role?, skill?, played?, won?, win?, mvp?⟩ else none
    | none => none

/-- `TeamDataExtractor._extract_team_data_from_row`
(team_data_extractor.py:428-497).  Same cell logic as the extract_player
variant except: the win-percentage regex is `(\d+\.?\d*)%`, the recomputed
win percentage is `(won / played) * 100` WITHOUT `round(.., 1)` (although
the docstring claims "exact same logic as extract-player"), and the record
is returned without the final name check. -/
def tdeExtractTeamDataFromRow (cells : List String) : Option TeamData :=
  if cells.length < 6 then none
  else
    let (season?, role?, name?) := teamCellParse (cells.getD 0 "")
    let skill? := digitCellParse (cells.getD 1 "")
    let played? := digitCellParse (cells.getD 2 "")
    let won? := digitCellParse (cells.getD 3 "")
    let winParsed? :=
      if cells.getD 4 "" ≠ "" then searchFor percentAtTde (cells.getD 4 "").data else none
    let mvp? :=
      if cells.getD 5 "" ≠ "" && pyStrip (cells.getD 5 "") ≠ "-" then
        some (pyStrip (cells.getD 5 "")) else none
    let win? :=
      match played?, won? with
      | some p, some w =>
        if 0 < p then some ((w : ℚ) / (p : ℚ) * 100) else winParsed?
      | _, _ => winParsed?
    some ⟨name?, season?, role?, skill?, played?, won?, win?, mvp?⟩

/-! ## Cell Parser: concatenated element text

`extract_player._extract_team_data_from_element` (extract_player.py:721-874):
parses a whole row's concatenated text.  The name is the text before the
season match; the role is searched in the text after the season and
everything up to the role's end is dropped; the MVP rank is an ordinal
`\d+(st|nd|rd|th)`; the stats blob is what remains after deleting the
percentage and ordinal matches and every non-digit, with four hardcoded
special cases, split by fixed-width guesses.  The `status` and `team_id`
fields (DOM / CLI context) are outside this pure model. -/

/-- Split strategies of the stats blob (extract_player.py:808-833):
(skill, played, won). -/
def splitStats (numbers : List Char) : Option (Nat × Nat × Nat) :=
  if numbers.length ≥ 3 then
    match numbers with
    | [a, b, c, _, _] => some (digitVal a, digitVal b, digitVal c)
    | [a, b, c, d, _, _] => some (digitVal a, 10 * digitVal b + digitVal c, digitVal d)
    | _ =>
      let ds := numbers.filter isDigitChar
      match ds with
      | a :: b :: c :: _ => some (digitVal a, digitVal b, digitVal c)
      | _ => none
  else none

def epExtractTeamDataFromElement (text : String) : Option TeamData :=
  if text = "" || (pyStrip text).length < 3 then none
  else
    match seasonSearch text.data with
    | some (bef, w, y, aft) =>
      let name := String.mk (stripL bef)
      let name? := if name ≠ "" then some name else none
      let season? := some (String.mk w ++ " " ++ String.mk y)
      let (role?, rem1) :=
        match roleSearch aft with
        | some (_, m, aft2) => (some (String.mk m), aft2)
        | none => (none, aft)
      let mvp? := (searchFor ordinalAt rem1).map String.mk
      let numbersGeneric := ((subAll ordinalLenAt (subAll percentLenAt rem1)).filter isDigitChar)
      let remStr := String.mk rem1
      let numbers :=
        if remStr = "72150.00%-" then "72150".data
        else if remStr = "7000%-" then "7000".data
        else if remStr = "712866.67%35th" then "712866".data
        else if remStr = "78337.50%70th" then "78337".data
        else numbersGeneric
      let stats? := splitStats numbers
      let skill? := stats?.map (·.1)
      let played? := stats?.map (·.2.1)
      let won? := stats?.map (·.2.2)
      -- win percentage is always written in this branch: recomputed when
      -- played is truthy and won present, 0.0 otherwise
      let win? :=
        match played?, won? with
        | some p, some wn =>
          if 0 < p then some (pyRound1 ((wn : ℚ) / (p : ℚ) * 100)) else some 0
        | _, _ => some 0
      match name? with
      | some n => some ⟨some n, season?, role?, skill?, played?, won?, win?, mvp?⟩
      | none => none
    | none =>
      -- fallback: first non-empty stripped line becomes the name
      let lines := ((splitChar '\n' text.data).map stripL).filter (fun l => !l.isEmpty)
      match lines with
      | l0 :: _ => some { name := some (String.mk l0) }
      | [] => none

/-! ## Cell Parser: flexible team rows (team_data_extractor.py:499-547) -/

def tdeExtractTeamDataFromRowFlexible (cells : List String) : Option TeamData :=
  let cellTexts := cells.map pyStrip
  if cells.length ≥ 6 then tdeExtractTeamDataFromRow cells
  else if cells.length = 2 then
    let t0 := cellTexts.getD 0 ""
    let t1 := cellTexts.getD 1 ""
    let td : TeamData :=
      if pyIsdigit t0 && t0.length = 4 then { season := some t0, name := some t1 }
      else { name := some t0, season := some t1 }
    match td.name with
    | some n => if n ≠ "" then some td else none
    | none => none
  else
    let td : TeamData :=
      { name := some (if cellTexts.isEmpty then "Unknown" else cellTexts.getD 0 "")
        season := some (cellTexts.getD 1 "N/A") }
    match td.name with
    | some n => if n ≠ "" then some td else none
    | none => none

/-! ## Cell Parser: player-roster rows (extract_team.py:292-378)

Cell 0 is name plus a trailing `#<digits>` member id; cell 2 is a combined
`won/played` cell split on `/`; cell 3 a percentage; cells 4-5 bare
numbers (PPM, PA).  The userid extracted from the DOM link inside cell 0
is outside this pure model. -/

/-- `re.search(r'#(\d+)$', s)` and `re.sub(r'#\d+$', '', s)`: the trailing
run of digits together with the `#` right before it. -/
def memberIdSplit (l : List Char) : Option (List Char × List Char) :=
  let rev := l.reverse
  let ds := rev.takeWhile isDigitChar
  if ds.isEmpty then none
  else
    match rev.drop ds.length with
    | '#' :: restRev => some (restRev.reverse, ds.reverse)
    | _ => none

def etExtractPlayerDataFromRow (cells : List String) : Option PlayerData :=
  if cells.length < 6 then none
  else
    let c0 := cells.getD 0 ""
    let (name?, member?) :=
      if c0 = "" then (none, none)
      else
        let name_text := pyStrip c0
        match memberIdSplit name_text.data with
        | some (bef, ds) => (some (String.mk (stripL bef)), some (String.mk ds))
        | none => (some name_text, none)
    let skill? := digitCellParse (cells.getD 1 "")
    let c2 := cells.getD 2 ""
    let (won?, played?) :=
      if c2 ≠ "" && c2.data.contains '/' then
        match splitChar '/' (pyStrip c2).data with
        | [a, b] =>
          if pyIsdigitL a && pyIsdigitL b then (some (natOfDigits a), some (natOfDigits b))
          else (none, none)
        | _ => (none, none)
      else (none, none)
    let winParsed? :=
      if cells.getD 3 "" ≠ "" then searchFor percentAt (cells.getD 3 "").data else none
    let ppm? :=
      if cells.getD 4 "" ≠ "" then searchFor numberAt (cells.getD 4 "").data else none
    let pa? :=
      if cells.getD 5 "" ≠ "" then searchFor numberAt (cells.getD 5 "").data else none
    let win? :=
      match played?, won? with
      | some p, some w =>
        if 0 < p then some (pyRound1 ((w : ℚ) / (p : ℚ) * 100)) else winParsed?
      | _, _ => winParsed?
    match name? with
    | some n => if n ≠ "" then
        some ⟨some n, member?, skill?, won?, played?, win?, ppm?, pa?⟩ else none
    | none => none

/-! ## Row Validator

`extract_player._is_valid_team_data` (extract_player.py:1024-1063) and
`extract_team._is_valid_player_data` (extract_team.py:380-420): a chain
of reject conditions over the record's name. -/

/-- The denylist of `extract_player._is_valid_team_data` (lines 1034-1040). -/
def skipNamesEp : List String :=
  ["member services", "dashboard", "matches", "news", "events", "my stats",
   "rules", "my leagues", "apa national", "store", "tournament info",
   "discounts", "contact", "need help", "logout", "login", "settings",
   "edit profile", "payments", "my membership", "card/id", "ac",
   "note: this table displays", "team statistics are not available"]

/-- The denylist of `extract_team._is_valid_player_data` (lines 390-397):
the same list plus table-header leftovers. -/
def skipNamesEt : List String :=
  skipNamesEp ++
  ["player name", "skill level", "matches won/played", "win %", "ppm", "pa"]

/-- `s.replace('.', '')`. -/
def removeDots (s : String) : String := String.mk (s.data.filter (fun c => c ≠ '.'))

/-- `s.endswith('%')`. -/
def endsWithPercent (s : String) : Bool := s.data.getLast? == some '%'

/-- Count of characters that are neither alphanumeric nor whitespace. -/
def specialCount (s : String) : Nat :=
  (s.data.filter (fun c => !(c.isAlphanum || isSpaceChar c))).length

/-- The reject chain shared by both denylist validators, parameterised by
the denylist.  `2 * specialCount > len` models `count > len * 0.5`. -/
def validNameCheck (skipNames : List String) (name : String) : Bool :=
  if name.length < 3 then false
  else if skipNames.any (fun s => occursIn s (lowerStr name)) then false
  else if (pyStrip name).length < 3 || pyIsdigit (pyStrip name) then false
  else if endsWithPercent (pyStrip name) || pyIsdigit (removeDots (pyStrip name)) then false
  else if 2 * specialCount name > name.length then false
  else true

def epIsValidTeamData (team_data : TeamData) : Bool :=
  validNameCheck skipNamesEp (team_data.name.getD "")

def etIsValidPlayerData (player_data : PlayerData) : Bool :=
  validNameCheck skipNamesEt (player_data.name.getD "")

/-- `TeamDataExtractor._is_valid_team_data` (team_data_extractor.py:549-566):
only requires a truthy name and at least one of skill / played / won /
season present. -/
def tdeIsValidTeamData (team_data : TeamData) : Bool :=
  match team_data.name with
  | none => false
  | some n =>
    if n = "" then false
    else
      team_data.skill_level.isSome || team_data.matches_played.isSome ||
      team_data.matches_won.isSome || team_data.season.isSome

/-! ## Table Scanner

`TeamDataExtractor._extract_all_teams_from_table`
(team_data_extractor.py:366-426).  A DOM row is modelled as its cell
texts plus an object-identity token `rid` (Python `id(row)`); the scanner
receives the concatenation of all selector query results. -/

structure DomRow where
  rid : Nat
  cells : List String
deriving DecidableEq

/-- The `seen_rows` identity dedup (lines 400-407): keep the first
occurrence of each `rid`. -/
def dedupRows : List DomRow → List Nat → List DomRow
  | [], _ => []
  | r :: rest, seen =>
    if seen.contains r.rid then dedupRows rest seen
    else r :: dedupRows rest (r.rid :: seen)

/-- Per-row parse + validate step of the scanner loop (lines 413-421). -/
def rowParseValidate (row : DomRow) : Option TeamData :=
  if row.cells.length ≥ 2 then
    match tdeExtractTeamDataFromRowFlexible row.cells with
    | some td => if tdeIsValidTeamData td then some td else none
    | none => none
  else none

/-- The scanner: dedup by object identity, then `for i, row: if i == 0:
continue` skips index 0 of the combined deduplicated collection (NOT the
first row of each physical table), then parse + validate each row. -/
def tdeExtractAllTeamsFromTable (all_rows : List DomRow) : List TeamData :=
  ((dedupRows all_rows []).drop 1).filterMap rowParseValidate

/-! ## Scroll-Pagination Loop

`_scroll_and_extract_past_teams` in extract_player.py (510-588, ceiling
30, with a bottom-of-page sentinel) and team_data_extractor.py (271-364,
ceiling 20, with an opportunistic scroll-then-rescan exit).  The scan
results and the bottom-of-page answers are supplied as input sequences;
the scroll / click actions only influence those inputs. -/

/-- The duplicate test of the merge step:
`any(t.get('name') == team.get('name') and t.get('season') == team.get('season') ...)`. -/
def hasKey (l : List TeamData) (r : TeamData) : Bool :=
  l.any (fun t => t.name == r.name && t.season == r.season)

/-- Merging one scan into the accumulated collection: append each record
whose (name, season) key is not yet present (extract_player.py:525-530). -/
def mergeTeams (l : List TeamData) (ts : List TeamData) : List TeamData :=
  ts.foldl (fun acc r => if hasKey acc r then acc else acc ++ [r]) l

structure EpState where
  all_teams : List TeamData
  previous_count : Nat
  attempts : Nat
deriving DecidableEq

/-- One iteration's state update of the extract_player loop: merge the
scan, then `if len(all_teams) == previous_count:` increment the retry
counter, else record the new count and reset the counter to 0. -/
def epIter (scan : List TeamData) (s : EpState) : EpState :=
  let merged := mergeTeams s.all_teams scan
  if merged.length = s.previous_count then ⟨merged, s.previous_count, s.attempts + 1⟩
  else ⟨merged, merged.length, 0⟩

/-- The extract_player scroll loop (`while scroll_attempts < 30`), with
`scanf i` the scan result and `botf i` the bottom-of-page sentinel of
iteration `i`; returns the merged collection on exit, `none` only when
the structural fuel runs out. -/
def epRun : Nat → (Nat → List TeamData) → (Nat → Bool) → Nat → EpState → Option (List TeamData)
  | 0, _, _, _, _ => none
  | fuel + 1, scanf, botf, i, s =>
    if 30 ≤ s.attempts then some s.all_teams
    else
      let merged := mergeTeams s.all_teams (scanf i)
      if botf i then some merged
      else epRun fuel scanf botf (i + 1) (epIter (scanf i) s)

structure TdeState where
  all : List TeamData
  attempts : Nat
deriving DecidableEq

/-- The team_data_extractor scroll loop (`while scroll_attempts < 20`).
Iteration `i` consumes the main scan `scanf (2*i)` and, when that scan
yields nothing new, the post-scroll rescan `scanf (2*i+1)`; a fruitless
rescan breaks immediately.  A productive main scan resets the counter to
0, and the shared `scroll_attempts += 1` at the end of the iteration then
leaves it at 1; a fruitless main scan followed by a productive rescan
just increments. -/
def tdeRun : Nat → (Nat → List TeamData) → Nat → TdeState → Option (List TeamData)
  | 0, _, _, _ => none
  | fuel + 1, scanf, i, s =>
    if 20 ≤ s.attempts then some s.all
    else
      let m1 := mergeTeams s.all (scanf (2 * i))
      if m1.length = s.all.length then
        let m2 := mergeTeams m1 (scanf (2 * i + 1))
        if m2.length = m1.length then some m2
        else tdeRun fuel scanf (i + 1) ⟨m2, s.attempts + 1⟩
      else tdeRun fuel scanf (i + 1) ⟨m1, 0 + 1⟩

/-- Records of the finite page universe whose key is not yet merged; the
termination measure counts these. -/
def missingCount (U l : List TeamData) : Nat :=
  (U.filter (fun r => !hasKey l r)).length

def measureEp (U : List TeamData) (s : EpState) : Nat :=
  31 * missingCount U s.all_teams + (30 - s.attempts)

def measureTde (U : List TeamData) (s : TdeState) : Nat :=
  21 * missingCount U s.all + (20 - s.attempts)

/-! ## Season Classifier

`_extract_past_teams` (extract_player.py:468-508 =
team_data_extractor.py:232-269): the maximum `20\d{2}` year over all
season strings (default 2025 when none parses) becomes the current year;
a record is `current` iff its season is truthy and contains `str(year)`
as a substring. -/

def seasonOf (t : TeamData) : String := t.season.getD ""

/-- The `years` list collected by the classifier loop. -/
def seasonYears (teams : List TeamData) : List Nat :=
  teams.filterMap (fun t =>
    if seasonOf t ≠ "" then searchFor yearValAt (seasonOf t).data else none)

/-- Python `max(list)` (`None` on empty, handled by the caller's guard). -/
def listMax : List Nat → Option Nat
  | [] => none
  | h :: t => some (t.foldl Nat.max h)

/-- `most_recent_year = max(years) if years else 2025`. -/
def mostRecentYear (teams : List TeamData) : Nat :=
  match listMax (seasonYears teams) with
  | some y => y
  | none => 2025

/-- The per-record labelling: `'current' if season and str(most_recent_year)
in season else 'past'`. -/
def classifyStatus (all_teams : List TeamData) (team : TeamData) : String :=
  if seasonOf team ≠ "" && occursIn (natToStr (mostRecentYear all_teams)) (seasonOf team)
  then "current" else "past"

/-! ## Aggregator

`TeamDataExtractor.extract_player_team_history`, statistics part
(team_data_extractor.py:61-93).  In this repository the `skill_level`
value of a record is an `int`, absent/`None`, or one of the placeholder
strings `'N/A'` / `'-'` that the aggregator explicitly guards against;
`SkillField` enumerates exactly these shapes. -/

inductive SkillField where
  | missing : SkillField
  | val : Nat → SkillField
  | na : SkillField
  | dash : SkillField
deriving DecidableEq

structure AggTeam where
  skill_level : SkillField := .missing
  season : Option String := none
deriving DecidableEq

structure AggResult where
  min_skill : Option Nat
  max_skill : Option Nat
  seasons_played : Nat
deriving DecidableEq

/-- The `ranks` list: skill values that are present, not a placeholder,
parse as int, and lie within 1..9. -/
def aggRanks (teams : List AggTeam) : List Nat :=
  teams.foldl (fun acc t =>
    match t.skill_level with
    | .val n => if 1 ≤ n && n ≤ 9 then acc ++ [n] else acc
    | _ => acc) []

/-- The `seasons` set: `if season and season != 'N/A' and season.strip():
seasons.add(season.strip())`, modelled as insertion into a duplicate-free
list. -/
def aggSeasons (teams : List AggTeam) : List String :=
  teams.foldl (fun acc t =>
    match t.season with
    | some s =>
      if s ≠ "" && s ≠ "N/A" && pyStrip s ≠ "" then
        (if acc.contains (pyStrip s) then acc else acc ++ [pyStrip s])
      else acc
    | none => acc) []

/-- min/max/seasons result; `none` models the `'N/A'` sentinel strings
stored when `ranks` is empty. -/
def extractPlayerTeamHistoryStats (teams : List AggTeam) : AggResult :=
  let ranks := aggRanks teams
  let seasons := aggSeasons teams
  { min_skill := match ranks with | [] => none | h :: t => some (t.foldl Nat.min h)
    max_skill := match ranks with | [] => none | h :: t => some (t.foldl Nat.max h)
    seasons_played := seasons.length }

/-! ## Lemmas about the merge step -/

theorem mergeTeams_cons (l : List TeamData) (t : TeamData) (ts : List TeamData) :
    mergeTeams l (t :: ts) = mergeTeams (if hasKey l t then l else l ++ [t]) ts := rfl

theorem hasKey_append (l1 l2 : List TeamData) (r : TeamData) :
    hasKey (l1 ++ l2) r = (hasKey l1 r || hasKey l2 r) := by
  simp [hasKey, List.any_append]

theorem hasKey_self_append (l : List TeamData) (r : TeamData) :
    hasKey (l ++ [r]) r = true := by
  simp [hasKey]

/-- `mergeTeams` only appends, and appends only records of the scan. -/
theorem mergeTeams_append_ex :
    ∀ (ts l : List TeamData), ∃ ex, mergeTeams l ts = l ++ ex ∧ ∀ r ∈ ex, r ∈ ts := by
  intro ts
  induction ts with
  | nil => intro l; exact ⟨[], by simp [mergeTeams]⟩
  | cons t ts ih =>
    intro l
    rw [mergeTeams_cons]
    cases hk : hasKey l t with
    | true =>
      simp only [hk, if_true]
      obtain ⟨ex, he, hsub⟩ := ih l
      exact ⟨ex, he, fun r hr => List.mem_cons_of_mem _ (hsub r hr)⟩
    | false =>
      simp only [hk, Bool.false_eq_true, if_false]
      obtain ⟨ex, he, hsub⟩ := ih (l ++ [t])
      refine ⟨t :: ex, by simpa using he, fun r hr => ?_⟩
      rcases List.mem_cons.mp hr with rfl | hr'
      · exact List.mem_cons_self _ _
      · exact List.mem_cons_of_mem _ (hsub r hr')

theorem hasKey_mergeTeams_of_hasKey (l ts : List TeamData) (r : TeamData)
    (h : hasKey l r = true) : hasKey (mergeTeams l ts) r = true := by
  obtain ⟨ex, he, _⟩ := mergeTeams_append_ex ts l
  rw [he, hasKey_append, h]
  rfl

theorem mergeTeams_len_eq (l ts : List TeamData)
    (h : (mergeTeams l ts).length = l.length) : mergeTeams l ts = l := by
  obtain ⟨ex, he, _⟩ := mergeTeams_append_ex ts l
  rw [he] at h ⊢
  have : ex = [] := by
    have := h
    rw [List.length_append] at this
    exact List.eq_nil_of_length_eq_zero (by omega)
  simp [this]

/-- After a merge, every record of the scan has its key present. -/
theorem hasKey_mergeTeams_mem :
    ∀ (ts l : List TeamData) (r : TeamData), r ∈ ts → hasKey (mergeTeams l ts) r = true := by
  intro ts
  induction ts with
  | nil => intro l r hr; cases hr
  | cons t ts ih =>
    intro l r hr
    rw [mergeTeams_cons]
    rcases List.mem_cons.mp hr with rfl | hr'
    · cases hk : hasKey l r with
      | true => simpa [hk] using hasKey_mergeTeams_of_hasKey l ts r hk
      | false =>
        simp only [hk, Bool.false_eq_true, if_false]
        exact hasKey_mergeTeams_of_hasKey _ ts r (hasKey_self_append l r)
    · exact ih _ r hr'

/-- Merging a scan whose keys are all present changes nothing. -/
theorem mergeTeams_eq_self_of_all :
    ∀ (ts l : List TeamData), (∀ r ∈ ts, hasKey l r = true) → mergeTeams l ts = l := by
  intro ts
  induction ts with
  | nil => intro l _; rfl
  | cons t ts ih =>
    intro l h
    rw [mergeTeams_cons, h t (List.mem_cons_self _ _)]
    simp only [if_true]
    exact ih l (fun r hr => h r (List.mem_cons_of_mem _ hr))

/-- A merge that changed the collection added some scan record whose key
was new. -/
theorem mergeTeams_progress :
    ∀ (ts l : List TeamData), mergeTeams l ts ≠ l →
      ∃ r, r ∈ ts ∧ hasKey l r = false ∧ hasKey (mergeTeams l ts) r = true := by
  intro ts
  induction ts with
  | nil => intro l h; exact absurd rfl h
  | cons t ts ih =>
    intro l h
    rw [mergeTeams_cons] at h ⊢
    cases hk : hasKey l t with
    | true =>
      simp only [hk, if_true] at h ⊢
      obtain ⟨r, hr, h1, h2⟩ := ih l h
      exact ⟨r, List.mem_cons_of_mem _ hr, h1, h2⟩
    | false =>
      simp only [hk, Bool.false_eq_true, if_false] at h ⊢
      exact ⟨t, List.mem_cons_self _ _, hk,
        hasKey_mergeTeams_of_hasKey _ ts t (hasKey_self_append l t)⟩

/-! ## Filter-length lemmas for the termination measure -/

theorem filterLenLe (p q : α → Bool) (h : ∀ a, q a = true → p a = true) :
    ∀ l : List α, (l.filter q).length ≤ (l.filter p).length := by
  intro l
  induction l with
  | nil => simp
  | cons a l ih =>
    cases hq : q a with
    | true => simp [List.filter_cons, hq, h a hq]; omega
    | false =>
      cases hp : p a with
      | true => simp [List.filter_cons, hq, hp]; omega
      | false => simpa [List.filter_cons, hq, hp] using ih

theorem filterLenLt (p q : α → Bool) (h : ∀ a, q a = true → p a = true) :
    ∀ (l : List α) (x : α), x ∈ l → p x = true → q x = false →
      (l.filter q).length < (l.filter p).length := by
  intro l
  induction l with
  | nil => intro x hx; cases hx
  | cons a l ih =>
    intro x hx hpx hqx
    rcases List.mem_cons.mp hx with rfl | hx'
    · have hle := filterLenLe p q h l
      simp [List.filter_cons, hqx, hpx]
      omega
    · cases hq : q a with
      | true =>
        have := ih x hx' hpx hqx
        simp [List.filter_cons, hq, h a hq]
        omega
      | false =>
        cases hp : p a with
        | true =>
          have := filterLenLe p q h l
          simp [List.filter_cons, hq, hp]
          omega
        | false =>
          have := ih x hx' hpx hqx
          simpa [List.filter_cons, hq, hp] using this

/-- A merge that changed the collection strictly shrinks the set of
not-yet-merged universe records. -/
theorem missingCount_lt (U l ts : List TeamData) (hsub : ∀ r ∈ ts, r ∈ U)
    (hne : mergeTeams l ts ≠ l) :
    missingCount U (mergeTeams l ts) < missingCount U l := by
  obtain ⟨r, hrts, hkl, hkm⟩ := mergeTeams_progress ts l hne
  unfold missingCount
  apply filterLenLt (fun a => !hasKey l a) (fun a => !hasKey (mergeTeams l ts) a)
  · intro a ha
    cases hk : hasKey l a with
    | false => rfl
    | true =>
      exfalso
      have := hasKey_mergeTeams_of_hasKey l ts a hk
      rw [this] at ha
      exact absurd ha (by simp)
  · exact hsub r hrts
  · simp [hkl]
  · simp [hkm]

/-! ## Termination of the scroll loops -/

/-- Every iteration of the extract_player loop re-establishes
`previous_count = len(all_teams)` for the state it hands to the next
iteration. -/
theorem epIter_inv (scan : List TeamData) (s : EpState) :
    (epIter scan s).previous_count = (epIter scan s).all_teams.length := by
  unfold epIter
  by_cases hlen : (mergeTeams s.all_teams scan).length = s.previous_count
  · simp [hlen]
  · simp [hlen]

/-- One continuing iteration of the extract_player loop strictly decreases
the termination measure, provided the scan draws from the universe `U`. -/
theorem measureEp_decreases (U : List TeamData) (scan : List TeamData) (s : EpState)
    (hU : ∀ r ∈ scan, r ∈ U) (hinv : s.previous_count = s.all_teams.length)
    (hatt : s.attempts < 30) : measureEp U (epIter scan s) < measureEp U s := by
  unfold epIter measureEp
  by_cases hlen : (mergeTeams s.all_teams scan).length = s.previous_count
  · rw [if_pos hlen]
    dsimp only
    rw [mergeTeams_len_eq _ _ (by rw [hlen, hinv])]
    omega
  · rw [if_neg hlen]
    dsimp only
    have hne : mergeTeams s.all_teams scan ≠ s.all_teams := by
      intro he; exact hlen (by rw [he, hinv])
    have hlt := missingCount_lt U s.all_teams scan hU hne
    omega

theorem epRun_isSome (U : List TeamData) (scanf : Nat → List TeamData) (botf : Nat → Bool)
    (hU : ∀ j, ∀ r ∈ scanf j, r ∈ U) :
    ∀ (fuel : Nat) (s : EpState) (i : Nat), s.previous_count = s.all_teams.length →
      measureEp U s < fuel → (epRun fuel scanf botf i s).isSome = true := by
  intro fuel
  induction fuel with
  | zero => intro s i _ hm; omega
  | succ fuel ih =>
    intro s i hinv hm
    simp only [epRun]
    by_cases hatt : 30 ≤ s.attempts
    · simp [hatt]
    · simp only [if_neg hatt]
      by_cases hbot : botf i = true
      · simp [hbot]
      · simp only [hbot, Bool.false_eq_true, if_false]
        have hdec := measureEp_decreases U (scanf i) s (hU i) hinv (by omega)
        exact ih (epIter (scanf i) s) (i + 1) (epIter_inv _ _) (by omega)

theorem tdeRun_isSome (U : List TeamData) (scanf : Nat → List TeamData)
    (hU : ∀ j, ∀ r ∈ scanf j, r ∈ U) :
    ∀ (fuel : Nat) (s : TdeState) (i : Nat),
      measureTde U s < fuel → (tdeRun fuel scanf i s).isSome = true := by
  intro fuel
  induction fuel with
  | zero => intro s i hm; omega
  | succ fuel ih =>
    intro s i hm
    simp only [tdeRun]
    by_cases hatt : 20 ≤ s.attempts
    · simp [hatt]
    · simp only [if_neg hatt]
      by_cases hlen1 : (mergeTeams s.all (scanf (2 * i))).length = s.all.length
      · have hm1 : mergeTeams s.all (scanf (2 * i)) = s.all := mergeTeams_len_eq _ _ hlen1
        rw [if_pos hlen1]
        by_cases hlen2 : (mergeTeams (mergeTeams s.all (scanf (2 * i))) (scanf (2 * i + 1))).length
            = (mergeTeams s.all (scanf (2 * i))).length
        · rw [if_pos hlen2]
          rfl
        · rw [if_neg hlen2]
          apply ih
          have hne : mergeTeams (mergeTeams s.all (scanf (2 * i))) (scanf (2 * i + 1))
              ≠ mergeTeams s.all (scanf (2 * i)) := by
            intro he; exact hlen2 (by rw [he])
          have hlt := missingCount_lt U (mergeTeams s.all (scanf (2 * i))) (scanf (2 * i + 1))
            (hU (2 * i + 1)) hne
          rw [hm1] at hlt ⊢
          unfold measureTde at hm ⊢
          dsimp only
          omega
      · rw [if_neg hlen1]
        apply ih
        have hne : mergeTeams s.all (scanf (2 * i)) ≠ s.all := by
          intro he; exact hlen1 (by rw [he])
        have hlt := missingCount_lt U s.all (scanf (2 * i)) (hU (2 * i)) hne
        unfold measureTde at hm ⊢
        dsimp only
        omega

/-! ## Lemmas about the identity dedup of the Table Scanner -/

theorem dedupRows_seen :
    ∀ (rows : List DomRow) (seen : List Nat) (r : DomRow),
      r ∈ dedupRows rows seen → seen.contains r.rid = false := by
  intro rows
  induction rows with
  | nil => intro seen r hr; cases hr
  | cons r0 rest ih =>
    intro seen r hr
    unfold dedupRows at hr
    by_cases hc : seen.contains r0.rid = true
    · rw [if_pos hc] at hr
      exact ih seen r hr
    · rw [if_neg hc] at hr
      rcases List.mem_cons.mp hr with rfl | hr'
      · exact Bool.not_eq_true _ ▸ eq_false_of_ne_true hc
      · have := ih (r0.rid :: seen) r hr'
        simp only [List.contains_cons, Bool.or_eq_false_iff] at this
        exact this.2

theorem dedupRows_pairwise :
    ∀ (rows : List DomRow) (seen : List Nat),
      (dedupRows rows seen).Pairwise (fun a b => a.rid ≠ b.rid) := by
  intro rows
  induction rows with
  | nil => intro seen; exact List.Pairwise.nil
  | cons r0 rest ih =>
    intro seen
    unfold dedupRows
    by_cases hc : seen.contains r0.rid = true
    · rw [if_pos hc]; exact ih seen
    · rw [if_neg hc]
      refine List.Pairwise.cons (fun b hb => ?_) (ih (r0.rid :: seen))
      have := dedupRows_seen rest (r0.rid :: seen) b hb
      simp only [List.contains_cons, Bool.or_eq_false_iff, beq_eq_false_iff_ne] at this
      exact fun he => this.1 he.symm

theorem ridCount_le_one :
    ∀ (l : List DomRow), l.Pairwise (fun a b => a.rid ≠ b.rid) →
      ∀ k, (l.filter (fun r => r.rid == k)).length ≤ 1 := by
  intro l
  induction l with
  | nil => intro _ k; simp
  | cons a l ih =>
    intro hpw k
    have ha := List.pairwise_cons.mp hpw
    cases hk : (a.rid == k) with
    | true =>
      have hkk : a.rid = k := by simpa using hk
      have hnil : l.filter (fun r => r.rid == k) = [] := by
        apply List.filter_eq_nil_iff.mpr
        intro b hb
        have := ha.1 b hb
        simp [← hkk, Ne.symm this]
      simp [List.filter_cons, hk, hnil]
    | false =>
      have := ih ha.2 k
      simpa [List.filter_cons, hk] using this

/-! ## Evaluation lemmas for `pyRound1` at concrete rationals -/

theorem roundHalfEven_low (q : ℚ) (n : ℤ) (hf : ⌊q⌋ = n) (hr : q - (n : ℚ) < 1/2) :
    roundHalfEven q = n := by
  unfold roundHalfEven
  rw [hf, if_pos hr]

theorem roundHalfEven_high (q : ℚ) (n : ℤ) (hf : ⌊q⌋ = n) (hr : 1/2 < q - (n : ℚ)) :
    roundHalfEven q = n + 1 := by
  unfold roundHalfEven
  rw [hf, if_neg (by linarith), if_pos hr]

theorem pyRound1_eq_of_floor_low (q : ℚ) (n : ℤ) (hf : ⌊10 * q⌋ = n)
    (hr : 10 * q - (n : ℚ) < 1/2) : pyRound1 q = (n : ℚ) / 10 := by
  unfold pyRound1
  rw [roundHalfEven_low _ n hf hr]

theorem pyRound1_eq_of_floor_high (q : ℚ) (n : ℤ) (hf : ⌊10 * q⌋ = n)
    (hr : 1/2 < 10 * q - (n : ℚ)) : pyRound1 q = ((n : ℚ) + 1) / 10 := by
  unfold pyRound1
  rw [roundHalfEven_high _ n hf hr]
  push_cast
  ring

/-! ## Claim C7: the Table Scanner's header skip and identity dedup

What the claim asserts the scanner does (spec-words definition, for
comparison): skip the first row of each physical table, then dedup by
object identity, then parse + validate. -/

def claimTableScanner (tables : List (List DomRow)) : List TeamData :=
  (dedupRows ((tables.map (fun t => t.drop 1)).flatten) []).filterMap rowParseValidate

def exH1 : DomRow := ⟨10, ["Team", "Season"]⟩
def exR1 : DomRow := ⟨11, ["Marlins", "Fall 2023"]⟩
def exH2 : DomRow := ⟨12, ["Team", "Season"]⟩
def exR2 : DomRow := ⟨13, ["Dolphins", "Spring 2024"]⟩

/-- Claim C7 is false as stated: on a page with two physical tables
(`[exH1, exR1]` and `[exH2, exR2]`, whose concatenation is what the
`table tbody tr` selector returns), the scanner skips only the very first
collected row, so the first row `exH2` of the SECOND physical table is
parsed and surfaces as a team record — while the claimed behaviour
(skip the first row of each physical table) would drop it. -/
theorem table_scanner_header_counterexample :
    tdeExtractAllTeamsFromTable [exH1, exR1, exH2, exR2] =
      [{ name := some "Marlins", season := some "Fall 2023" },
       { name := some "Team", season := some "Season" },
       { name := some "Dolphins", season := some "Spring 2024" }]
    ∧ claimTableScanner [[exH1, exR1], [exH2, exR2]] =
      [{ name := some "Marlins", season := some "Fall 2023" },
       { name := some "Dolphins", season := some "Spring 2024" }] := by
  constructor
  · rfl
  · rfl

/-- Claim C7, amended: the scanner deduplicates the collected rows by
object identity before parsing (so each DOM node is parsed at most once),
but skips only the first row of the combined deduplicated collection —
the assumed header of the first table — not the first row of each
physical table. -/
theorem table_scanner_amended :
    (∀ all_rows : List DomRow,
      tdeExtractAllTeamsFromTable all_rows
        = ((dedupRows all_rows []).drop 1).filterMap rowParseValidate)
    ∧ (∀ all_rows : List DomRow,
        (dedupRows all_rows []).Pairwise (fun a b => a.rid ≠ b.rid))
    ∧ (∀ (all_rows : List DomRow) (k : Nat),
        ((dedupRows all_rows []).filter (fun r => r.rid == k)).length ≤ 1) := by
  refine ⟨fun all_rows => rfl, fun all_rows => dedupRows_pairwise all_rows [], ?_⟩
  intro all_rows k
  exact ridCount_le_one _ (dedupRows_pairwise all_rows []) k

/-! ## Claim C5: merging is idempotent on already-seen keys -/

/-- Claim C5: a record whose (name, season) key is already in the merged
collection is never added again (merging it changes nothing, so the
count is unchanged), and re-merging a whole scan of unchanged content is
idempotent. -/
theorem merge_dedup_idempotent :
    (∀ (all_teams : List TeamData) (team : TeamData),
      hasKey all_teams team = true → mergeTeams all_teams [team] = all_teams)
    ∧ ∀ (all_teams ts : List TeamData),
        mergeTeams (mergeTeams all_teams ts) ts = mergeTeams all_teams ts := by
  constructor
  · intro l r h
    simp [mergeTeams, h]
  · intro l ts
    exact mergeTeams_eq_self_of_all ts _ (fun r hr => hasKey_mergeTeams_mem ts l r hr)

/-- Witness for C5 at concrete records. -/
theorem merge_dedup_idempotent_witness :
    mergeTeams [{ name := some "All in the Game", season := some "Fall 2025" }]
        [{ name := some "All in the Game", season := some "Fall 2025" }]
      = [{ name := some "All in the Game", season := some "Fall 2025" }]
    ∧ mergeTeams (mergeTeams []
          [({ name := some "A", season := some "Fall 2024" } : TeamData),
           { name := some "B", season := some "Fall 2023" }])
        [{ name := some "A", season := some "Fall 2024" },
         { name := some "B", season := some "Fall 2023" }]
      = mergeTeams []
          [{ name := some "A", season := some "Fall 2024" },
           { name := some "B", season := some "Fall 2023" }] :=
  ⟨merge_dedup_idempotent.1 _ _ (by decide), merge_dedup_idempotent.2 _ _⟩

/-! ## Claim C1: recomputed win percentage -/

def c1Cells : List String :=
  ["All in the GameFall 2025Captain", "5", "3", "1", "99.99%", "-"]

/-- Claim C1 states the invariant `win_percentage = round(100*won/played, 1)`
whenever played > 0 and won is present.  The extract_player row parser
does round: on `c1Cells` (played 3, won 1, displayed 99.99%) it stores
round(100/3, 1) = 33.3, overriding the page value.  But the
team_data_extractor copy (whose docstring claims "using exact same logic
as extract-player") omits `round(.., 1)` and stores the raw 100/3, so the
invariant fails there: 100/3 ≠ 33.3. -/
theorem win_percentage_recompute_eval :
    (epExtractTeamDataFromRow c1Cells).map TeamData.win_percentage
        = some (some ((333 : ℚ) / 10))
    ∧ (tdeExtractTeamDataFromRow c1Cells).map TeamData.win_percentage
        = some (some ((100 : ℚ) / 3))
    ∧ ((100 : ℚ) / 3) ≠ (333 : ℚ) / 10 := by
  refine ⟨?_, ?_, by norm_num⟩
  · have h1 : (epExtractTeamDataFromRow c1Cells).map TeamData.win_percentage
        = some (some (pyRound1 (((1 : ℕ) : ℚ) / ((3 : ℕ) : ℚ) * 100))) := rfl
    rw [h1, pyRound1_eq_of_floor_low _ 333 (by rw [Int.floor_eq_iff]; norm_num)
      (by push_cast; norm_num)]
    norm_num
  · have h1 : (tdeExtractTeamDataFromRow c1Cells).map TeamData.win_percentage
        = some (some (((1 : ℕ) : ℚ) / ((3 : ℕ) : ℚ) * 100)) := rfl
    rw [h1]
    norm_num

/-! ## Claim C2: end-to-end parse of a concatenated row text -/

/-- Claim C2: the element cell parser maps the row text
`"All in the GameFall 2025Captain72150.00%-"` to exactly the record with
name "All in the Game", season "Fall 2025", role "Captain", skill 7,
played 2, won 1, win percentage 50.0 and no MVP rank. -/
theorem row_text_end_to_end_parse :
    epExtractTeamDataFromElement "All in the GameFall 2025Captain72150.00%-"
      = some { name := some "All in the Game", season := some "Fall 2025",
               role := some "Captain", skill_level := some 7,
               matches_played := some 2, matches_won := some 1,
               win_percentage := some 50, mvp_rank := none } := by
  have hval : pyRound1 (((1 : ℕ) : ℚ) / ((2 : ℕ) : ℚ) * 100) = 50 := by
    rw [pyRound1_eq_of_floor_low _ 500 (by rw [Int.floor_eq_iff]; norm_num)
      (by push_cast; norm_num)]
    norm_num
  calc epExtractTeamDataFromElement "All in the GameFall 2025Captain72150.00%-"
      = some { name := some "All in the Game", season := some "Fall 2025",
               role := some "Captain", skill_level := some 7,
               matches_played := some 2, matches_won := some 1,
               win_percentage := some (pyRound1 (((1 : ℕ) : ℚ) / ((2 : ℕ) : ℚ) * 100)),
               mvp_rank := none } := rfl
    _ = _ := by rw [hval]

/-! ## Claim C10: the 'ac' denylist entry rejects by substring -/

/-- Claim C10: because `'ac'` is an entry of the fixed denylist and the
denylist matches by case-insensitive substring, every record whose name
contains "ac" (case-insensitively) is rejected — by the team-history
validator of extract_player and the roster validator of extract_team
alike. -/
theorem denylist_ac_substring_rejects :
    (∀ td : TeamData, occursIn "ac" (lowerStr (td.name.getD "")) = true →
      epIsValidTeamData td = false)
    ∧ (∀ pd : PlayerData, occursIn "ac" (lowerStr (pd.name.getD "")) = true →
      etIsValidPlayerData pd = false) := by
  constructor
  · intro td h
    unfold epIsValidTeamData validNameCheck
    have hany : skipNamesEp.any (fun s => occursIn s (lowerStr (td.name.getD ""))) = true :=
      List.any_eq_true.mpr ⟨"ac", by decide, h⟩
    by_cases h3 : (td.name.getD "").length < 3
    · rw [if_pos h3]
    · rw [if_neg h3, if_pos hany]
  · intro pd h
    unfold etIsValidPlayerData validNameCheck
    have hany : skipNamesEt.any (fun s => occursIn s (lowerStr (pd.name.getD ""))) = true :=
      List.any_eq_true.mpr ⟨"ac", by decide, h⟩
    by_cases h3 : (pd.name.getD "").length < 3
    · rw [if_pos h3]
    · rw [if_neg h3, if_pos hany]

/-- Witness for C10: the ordinary names "Black Aces" and "Beach Bums" are
silently discarded. -/
theorem denylist_ac_substring_rejects_witness :
    epIsValidTeamData { name := some "Black Aces" } = false
    ∧ etIsValidPlayerData { name := some "Beach Bums" } = false :=
  ⟨denylist_ac_substring_rejects.1 _ (by decide),
   denylist_ac_substring_rejects.2 _ (by decide)⟩

/-! ## Claim C8: the Row Validator's reject conditions -/

/-- "a bare percentage": the whole (stripped) name matches `\d+(\.\d+)?%`.
Part of the claim's wording (spec-words definition, for comparison). -/
def isBarePercent (s : String) : Bool :=
  let (d1, r1) := digitsSplit s.data
  !d1.isEmpty &&
    (match r1 with
     | ['%'] => true
     | '.' :: r2 =>
       let (d2, r3) := digitsSplit r2
       !d2.isEmpty && r3 == ['%']
     | _ => false)

/-- The reject conditions exactly as claim C8 states them (spec-words
definition, for comparison): name shorter than 3 characters, or a
denylist phrase occurs case-insensitively, or the name is purely numeric
or a bare percentage, or more than 50% of its characters are
non-alphanumeric/non-space. -/
def claimRejects (name : String) : Bool :=
  decide (name.length < 3) ||
  skipNamesEp.any (fun s => occursIn s (lowerStr name)) ||
  pyIsdigit (pyStrip name) ||
  isBarePercent (pyStrip name) ||
  decide (2 * specialCount name > name.length)

/-- The reject conditions the code actually implements, flattened: the
claim's conditions AND ALSO a stripped name shorter than 3 characters,
a stripped name that ends in '%' (not only bare percentages), and a
stripped name that becomes all digits once periods are removed. -/
def epRejectConditions (name : String) : Bool :=
  decide (name.length < 3) ||
  skipNamesEp.any (fun s => occursIn s (lowerStr name)) ||
  (decide ((pyStrip name).length < 3) || pyIsdigit (pyStrip name)) ||
  (endsWithPercent (pyStrip name) || pyIsdigit (removeDots (pyStrip name))) ||
  decide (2 * specialCount name > name.length)

/-- Claim C8 is false as stated: the name "Top 10%" meets none of the
claim's reject conditions (it is 7 characters, matches no denylist
phrase, is neither purely numeric nor a bare percentage, and only 1 of
its 7 characters is special), yet the validator rejects it, because the
code rejects ANY stripped name ending in '%'. -/
theorem row_validator_counterexample :
    epIsValidTeamData { name := some "Top 10%" } = false
    ∧ claimRejects "Top 10%" = false :=
  ⟨by decide, by decide⟩

/-- Claim C8, amended: the validator rejects exactly when the raw name or
its stripped form is shorter than 3 characters, or a denylist phrase
occurs case-insensitively in the name, or the stripped name is all
digits (with or without periods removed) or ends in '%', or more than
50% of the raw name's characters are neither alphanumeric nor spaces;
"Member Services" is rejected and "All in the Game" accepted. -/
theorem row_validator_amended :
    (∀ name : String, validNameCheck skipNamesEp name = !epRejectConditions name)
    ∧ (∀ td : TeamData, epIsValidTeamData td = !epRejectConditions (td.name.getD ""))
    ∧ epIsValidTeamData { name := some "Member Services" } = false
    ∧ epIsValidTeamData { name := some "All in the Game" } = true := by
  have hmain : ∀ name : String, validNameCheck skipNamesEp name = !epRejectConditions name := by
    intro name
    unfold validNameCheck epRejectConditions
    by_cases h1 : name.length < 3
    · simp [h1]
    · simp only [if_neg h1, decide_eq_false h1, Bool.false_or]
      cases h2 : skipNamesEp.any (fun s => occursIn s (lowerStr name)) with
      | true => simp [h2]
      | false =>
        simp only [if_neg (by simp [h2] : ¬(skipNamesEp.any
          (fun s => occursIn s (lowerStr name)) = true)), Bool.false_or]
        cases h3 : (decide ((pyStrip name).length < 3) || pyIsdigit (pyStrip name)) with
        | true => simp [h3]
        | false =>
          simp only [h3, Bool.false_eq_true, if_false, Bool.false_or]
          cases h4 : (endsWithPercent (pyStrip name) || pyIsdigit (removeDots (pyStrip name))) with
          | true => simp [h4]
          | false =>
            simp only [h4, Bool.false_eq_true, if_false, Bool.false_or]
            by_cases h5 : 2 * specialCount name > name.length
            · simp [h5]
            · simp [h5]
  exact ⟨hmain, fun td => hmain _, by decide, by decide⟩

/-! ## Claim C4: the Aggregator -/

/-- Per-record skill filter as the amended claim words it: the skill
values that are integers within 1..9 (absent and the `'N/A'`/`'-'`
placeholders excluded). -/
def skillKeep (t : AggTeam) : Option Nat :=
  match t.skill_level with
  | .val n => if 1 ≤ n && n ≤ 9 then some n else none
  | _ => none

/-- Per-record season filter as the amended claim words it: the stripped
season string, of seasons that are present, non-empty, not the literal
`'N/A'`, and not whitespace-only. -/
def seasonKeep (t : AggTeam) : Option String :=
  match t.season with
  | some s => if s ≠ "" && s ≠ "N/A" && pyStrip s ≠ "" then some (pyStrip s) else none
  | none => none

/-- The set-insertion step of the seasons fold, phrased through
`seasonKeep`. -/
def seasonInsert (acc : List String) (t : AggTeam) : List String :=
  match seasonKeep t with
  | some v => if acc.contains v then acc else acc ++ [v]
  | none => acc

/-- The aggregate the amended claim describes (spec-words definition, for
comparison with the code's `extractPlayerTeamHistoryStats`). -/
def aggSpecAmended (teams : List AggTeam) : AggResult :=
  { min_skill := (teams.filterMap skillKeep).min?
    max_skill := (teams.filterMap skillKeep).max?
    seasons_played := ((teams.filterMap seasonKeep).dedup).length }

/-- `seasons_played` as claim C4 words it (spec-words definition): the
number of distinct non-empty trimmed season strings. -/
def seasonsPlayedPerClaim (teams : List AggTeam) : Nat :=
  (((teams.filterMap (fun t => t.season)).map pyStrip).filter (fun s => s ≠ "")).dedup.length

theorem aggRanks_go :
    ∀ (teams : List AggTeam) (acc : List Nat),
      teams.foldl (fun acc t =>
        match t.skill_level with
        | .val n => if 1 ≤ n && n ≤ 9 then acc ++ [n] else acc
        | _ => acc) acc = acc ++ teams.filterMap skillKeep := by
  intro teams
  induction teams with
  | nil => intro acc; simp
  | cons t ts ih =>
    intro acc
    rw [List.foldl_cons, ih, List.filterMap_cons]
    have hf : (match t.skill_level with
        | .val n => if 1 ≤ n && n ≤ 9 then acc ++ [n] else acc
        | _ => acc) = acc ++ (skillKeep t).toList := by
      unfold skillKeep
      cases t.skill_level with
      | val n =>
        by_cases h : (1 ≤ n && n ≤ 9) = true
        · simp [h]
        · simp [h]
      | missing => simp
      | na => simp
      | dash => simp
    rw [hf]
    cases hft : skillKeep t with
    | none => simp
    | some v => simp

theorem aggRanks_eq_filterMap (teams : List AggTeam) :
    aggRanks teams = teams.filterMap skillKeep := by
  unfold aggRanks
  rw [aggRanks_go teams []]
  simp

theorem aggSeasons_eq_fold_seasonInsert (teams : List AggTeam) (acc : List String) :
    teams.foldl (fun acc t =>
      match t.season with
      | some s =>
        if s ≠ "" && s ≠ "N/A" && pyStrip s ≠ "" then
          (if acc.contains (pyStrip s) then acc else acc ++ [pyStrip s])
        else acc
      | none => acc) acc = teams.foldl seasonInsert acc := by
  induction teams generalizing acc with
  | nil => rfl
  | cons t ts ih =>
    rw [List.foldl_cons, List.foldl_cons, ih]
    have hbody : (match t.season with
        | some s =>
          if s ≠ "" && s ≠ "N/A" && pyStrip s ≠ "" then
            (if acc.contains (pyStrip s) then acc else acc ++ [pyStrip s])
          else acc
        | none => acc) = seasonInsert acc t := by
      unfold seasonInsert seasonKeep
      cases t.season with
      | none => rfl
      | some s =>
        by_cases h : (s ≠ "" && s ≠ "N/A" && pyStrip s ≠ "") = true
        · simp only [h, if_true]
        · simp only [h, Bool.false_eq_true, if_false]
    rw [hbody]

theorem seasonInsert_fold_go :
    ∀ (teams : List AggTeam) (acc : List String), acc.Nodup →
      (teams.foldl seasonInsert acc).Nodup
      ∧ ∀ x, x ∈ teams.foldl seasonInsert acc
          ↔ x ∈ acc ∨ x ∈ teams.filterMap seasonKeep := by
  intro teams
  induction teams with
  | nil =>
    intro acc hacc
    exact ⟨hacc, fun x => by simp⟩
  | cons t ts ih =>
    intro acc hacc
    rw [List.foldl_cons]
    cases hsk : seasonKeep t with
    | none =>
      have hstep : seasonInsert acc t = acc := by simp [seasonInsert, hsk]
      rw [hstep]
      have := ih acc hacc
      refine ⟨this.1, fun x => ?_⟩
      rw [this.2 x, List.filterMap_cons, hsk]
    | some v =>
      by_cases hc : acc.contains v = true
      · have hv : v ∈ acc := List.elem_iff.mp hc
        have hstep : seasonInsert acc t = acc := by simp [seasonInsert, hsk, hv]
        rw [hstep]
        have := ih acc hacc
        refine ⟨this.1, fun x => ?_⟩
        rw [this.2 x, List.filterMap_cons, hsk]
        simp only [List.mem_cons]
        constructor
        · tauto
        · rintro (hx | rfl | hx)
          · exact Or.inl hx
          · exact Or.inl hv
          · exact Or.inr hx
      · have hnv : v ∉ acc := fun hv => hc (List.elem_iff.mpr hv)
        have hstep : seasonInsert acc t = acc ++ [v] := by simp [seasonInsert, hsk, hnv]
        rw [hstep]
        have hnd : (acc ++ [v]).Nodup := by
          rw [List.nodup_append]
          exact ⟨hacc, List.nodup_singleton v, by simpa using hnv⟩
        have := ih (acc ++ [v]) hnd
        refine ⟨this.1, fun x => ?_⟩
        rw [this.2 x, List.filterMap_cons, hsk]
        simp only [List.mem_append, List.mem_cons, List.not_mem_nil, or_false]
        tauto

theorem aggSeasons_length (teams : List AggTeam) :
    (aggSeasons teams).length = ((teams.filterMap seasonKeep).dedup).length := by
  have hfold : aggSeasons teams = teams.foldl seasonInsert [] := by
    unfold aggSeasons
    exact aggSeasons_eq_fold_seasonInsert teams []
  have h := seasonInsert_fold_go teams [] List.nodup_nil
  have hmem : ∀ x, x ∈ aggSeasons teams ↔ x ∈ (teams.filterMap seasonKeep).dedup := by
    intro x
    rw [hfold, List.mem_dedup, h.2 x]
    simp
  have hnd : (aggSeasons teams).Nodup := by rw [hfold]; exact h.1
  have hfin : (aggSeasons teams).toFinset = ((teams.filterMap seasonKeep).dedup).toFinset :=
    Finset.ext fun x => by simp only [List.mem_toFinset]; exact hmem x
  calc (aggSeasons teams).length
      = (aggSeasons teams).toFinset.card := (List.toFinset_card_of_nodup hnd).symm
    _ = ((teams.filterMap seasonKeep).dedup).toFinset.card := by rw [hfin]
    _ = ((teams.filterMap seasonKeep).dedup).length :=
        List.toFinset_card_of_nodup ((teams.filterMap seasonKeep).nodup_dedup)

/-- Claim C4 is false as stated for `seasons_played`: on a single record
whose season is the literal placeholder string "N/A", the aggregator
counts 0 seasons (the code explicitly excludes `'N/A'`), while the
claim's "number of distinct non-empty trimmed season strings" counts 1. -/
theorem aggregator_seasons_counterexample :
    (extractPlayerTeamHistoryStats [⟨.missing, some "N/A"⟩]).seasons_played = 0
    ∧ seasonsPlayedPerClaim [⟨.missing, some "N/A"⟩] = 1 :=
  ⟨by decide, by decide⟩

/-- Claim C4, amended: min/max skill are taken over exactly the skill
values that are integers in 1..9 (a 'not available' sentinel when none
exist), and seasons_played counts distinct non-empty trimmed season
strings EXCLUDING seasons whose raw value is the literal placeholder
'N/A'; in particular skills [3, 7, 11, N/A, 5] give min 3 and max 7. -/
theorem aggregator_amended_correct :
    (∀ teams : List AggTeam, extractPlayerTeamHistoryStats teams = aggSpecAmended teams)
    ∧ extractPlayerTeamHistoryStats
        [⟨.val 3, none⟩, ⟨.val 7, none⟩, ⟨.val 11, none⟩, ⟨.na, none⟩, ⟨.val 5, none⟩]
      = ⟨some 3, some 7, 0⟩ := by
  constructor
  · intro teams
    unfold extractPlayerTeamHistoryStats aggSpecAmended
    dsimp only
    rw [aggRanks_eq_filterMap, aggSeasons_length]
    cases teams.filterMap skillKeep with
    | nil => rfl
    | cons h t => rfl
  · decide

/-! ## Claim C3: the Season Classifier -/

theorem natToStr_data_ne_nil (n : Nat) : (natToStr n).data ≠ [] := by
  unfold natToStr
  by_cases h : n = 0
  · simp [h]
  · rw [if_neg h]
    cases n with
    | zero => exact absurd rfl h
    | succ m =>
      show (natToDigitsRev (m + 1) (m + 1)).reverse ≠ []
      unfold natToDigitsRev
      rw [if_neg h]
      simp

theorem listMax_eq_none_iff (l : List Nat) : listMax l = none ↔ l = [] := by
  cases l with
  | nil => simp [listMax]
  | cons h t => simp [listMax]

/-- If "2025" occurs in a character list, the `20\d{2}` year search
succeeds on it. -/
theorem yearSearch_of_occurs_2025 :
    ∀ hay : List Char, occursL "2025".data hay = true →
      (searchFor yearValAt hay).isSome = true := by
  intro hay
  induction hay with
  | nil => intro h; simp [occursL] at h
  | cons c t ih =>
    intro h
    unfold occursL at h
    rcases Bool.or_eq_true_iff.mp h with hlead | hrest
    · -- the pattern matches right here, so `yearValAt` succeeds here
      rcases t with _ | ⟨b, _ | ⟨c2, _ | ⟨d, r⟩⟩⟩
      · simp [show ("2025".data : List Char) = ['2', '0', '2', '5'] from rfl, leadsEq] at hlead
      · simp [show ("2025".data : List Char) = ['2', '0', '2', '5'] from rfl, leadsEq] at hlead
      · simp [show ("2025".data : List Char) = ['2', '0', '2', '5'] from rfl, leadsEq] at hlead
      · simp only [show ("2025".data : List Char) = ['2', '0', '2', '5'] from rfl,
          leadsEq, Bool.and_eq_true, beq_iff_eq] at hlead
        obtain ⟨hc, hb, hc2, hd, -⟩ := hlead
        subst hc; subst hb; subst hc2; subst hd
        rfl
    · have := ih hrest
      unfold searchFor
      cases hf : yearValAt (c :: t) with
      | some v => simp
      | none => simpa using this

/-- Claim C3: over a non-empty merged record set, a record is labelled
'current' exactly when its season string contains (as a substring) the
decimal spelling of the maximum year extracted across all records; when
no record has a parseable `20\d{2}` year, the 2025 fallback becomes the
reference year and every record is labelled 'past'. -/
theorem season_classifier_correct (teams : List TeamData) (_hne : teams ≠ []) :
    (∀ m, listMax (seasonYears teams) = some m →
      ∀ t ∈ teams, (classifyStatus teams t = "current"
        ↔ occursIn (natToStr m) (seasonOf t) = true))
    ∧ (seasonYears teams = [] →
        mostRecentYear teams = 2025
        ∧ ∀ t ∈ teams, classifyStatus teams t = "past")
    ∧ (seasonYears teams ≠ [] →
        ∃ m, listMax (seasonYears teams) = some m ∧ mostRecentYear teams = m) := by
  refine ⟨?_, ?_, ?_⟩
  · intro m hm t ht
    unfold classifyStatus mostRecentYear
    rw [hm]
    by_cases hocc : occursIn (natToStr m) (seasonOf t) = true
    · have hs : seasonOf t ≠ "" := by
        intro he
        rw [he] at hocc
        unfold occursIn occursL at hocc
        simp only [List.isEmpty_iff] at hocc
        exact natToStr_data_ne_nil m hocc
      rw [if_pos (by simp [hs, hocc])]
      simp [hocc]
    · rw [if_neg (by simp [hocc])]
      constructor
      · intro h; exact absurd h (by decide)
      · intro h; exact absurd h hocc
  · intro hys
    have hmr : mostRecentYear teams = 2025 := by
      unfold mostRecentYear
      rw [hys]
      rfl
    refine ⟨hmr, fun t ht => ?_⟩
    unfold classifyStatus
    rw [hmr]
    rw [if_neg ?_]
    intro hcond
    rw [Bool.and_eq_true] at hcond
    have hs : seasonOf t ≠ "" := by simpa using hcond.1
    have hocc : occursL (natToStr 2025).data (seasonOf t).data = true := hcond.2
    have h2025 : (natToStr 2025).data = "2025".data := rfl
    rw [h2025] at hocc
    have hsome := yearSearch_of_occurs_2025 _ hocc
    have hnone := (List.filterMap_eq_nil_iff.mp hys) t ht
    rw [if_pos hs] at hnone
    rw [hnone] at hsome
    simp at hsome
  · intro hys
    cases hl : listMax (seasonYears teams) with
    | none => exact absurd ((listMax_eq_none_iff _).mp hl) hys
    | some m =>
      refine ⟨m, rfl, ?_⟩
      unfold mostRecentYear
      rw [hl]

/-- Witness for C3 at a concrete record set with years 2023 and 2025. -/
theorem season_classifier_correct_witness :
    classifyStatus [{ season := some "Fall 2023" }, { season := some "Spring 2025" }, {}]
        { season := some "Spring 2025" } = "current"
    ∧ classifyStatus [{ season := some "Fall 2023" }, { season := some "Spring 2025" }, {}]
        { season := some "Fall 2023" } ≠ "current" := by
  have h := (season_classifier_correct
    [{ season := some "Fall 2023" }, { season := some "Spring 2025" }, {}] (by decide)).1
    2025 (by decide)
  constructor
  · exact (h { season := some "Spring 2025" } (by decide)).mpr (by decide)
  · intro hcur
    have := (h { season := some "Fall 2023" } (by decide)).mp hcur
    exact absurd this (by decide)

/-! ## Claim C6: termination and exit conditions of the scroll loops -/

/-- Claim C6: (1) the extract_player loop terminates whenever its scans
draw from a finite page universe `U` (fuel one more than the initial
measure suffices); (2) its retry counter becomes 0 after an iteration
whose scan merged at least one net-new record and increments otherwise;
(3) it is DONE when the counter reaches its ceiling 30, returning the
merged collection; (4) it is DONE when the bottom-of-page sentinel is
observed; (5) the team_data_extractor loop (ceiling 20) terminates the
same way; and (6) that loop is DONE as soon as a main scan and the
following post-scroll rescan both merge nothing new (the opportunistic
exit). -/
theorem scroll_loop_termination :
    (∀ (U : List TeamData) (scanf : Nat → List TeamData) (botf : Nat → Bool),
      (∀ j, ∀ r ∈ scanf j, r ∈ U) →
      (epRun (31 * missingCount U [] + 31) scanf botf 0 ⟨[], 0, 0⟩).isSome = true)
    ∧ (∀ (scan : List TeamData) (s : EpState),
        s.previous_count = s.all_teams.length →
        (epIter scan s).attempts
          = if mergeTeams s.all_teams scan = s.all_teams then s.attempts + 1 else 0)
    ∧ (∀ (fuel : Nat) (scanf : Nat → List TeamData) (botf : Nat → Bool) (i : Nat)
        (s : EpState), 30 ≤ s.attempts →
        epRun (fuel + 1) scanf botf i s = some s.all_teams)
    ∧ (∀ (fuel : Nat) (scanf : Nat → List TeamData) (botf : Nat → Bool) (i : Nat)
        (s : EpState), s.attempts < 30 → botf i = true →
        epRun (fuel + 1) scanf botf i s = some (mergeTeams s.all_teams (scanf i)))
    ∧ (∀ (U : List TeamData) (scanf : Nat → List TeamData),
        (∀ j, ∀ r ∈ scanf j, r ∈ U) →
        (tdeRun (21 * missingCount U [] + 21) scanf 0 ⟨[], 0⟩).isSome = true)
    ∧ (∀ (fuel : Nat) (scanf : Nat → List TeamData) (i : Nat) (s : TdeState),
        s.attempts < 20 →
        mergeTeams s.all (scanf (2 * i)) = s.all →
        mergeTeams (mergeTeams s.all (scanf (2 * i))) (scanf (2 * i + 1))
          = mergeTeams s.all (scanf (2 * i)) →
        tdeRun (fuel + 1) scanf i s = some s.all) := by
  refine ⟨?_, ?_, ?_, ?_, ?_, ?_⟩
  · intro U scanf botf hU
    exact epRun_isSome U scanf botf hU _ ⟨[], 0, 0⟩ 0 rfl
      (by unfold measureEp; dsimp only; omega)
  · intro scan s hinv
    unfold epIter
    by_cases hlen : (mergeTeams s.all_teams scan).length = s.previous_count
    · have hmeq : mergeTeams s.all_teams scan = s.all_teams :=
        mergeTeams_len_eq _ _ (by rw [hlen, hinv])
      rw [if_pos hlen, if_pos hmeq]
    · have hne : mergeTeams s.all_teams scan ≠ s.all_teams := by
        intro he; exact hlen (by rw [he, hinv])
      rw [if_neg hlen, if_neg hne]
  · intro fuel scanf botf i s h
    simp only [epRun]
    rw [if_pos h]
  · intro fuel scanf botf i s hatt hbot
    simp only [epRun]
    rw [if_neg (by omega), if_pos hbot]
  · intro U scanf hU
    exact tdeRun_isSome U scanf hU _ ⟨[], 0⟩ 0
      (by unfold measureTde; dsimp only; omega)
  · intro fuel scanf i s hatt h1 h2
    simp only [tdeRun]
    rw [if_neg (by omega), if_pos (by rw [h1]), if_pos (by rw [h2]), h2, h1]

/-- Witness for C6 at a concrete page universe of two records, whose
scans repeat the same content. -/
theorem scroll_loop_termination_witness :
    (epRun (31 * missingCount
        [({ name := some "A", season := some "Fall 2025" } : TeamData),
         { name := some "B", season := some "Fall 2024" }] [] + 31)
      (fun _ => [{ name := some "A", season := some "Fall 2025" },
                 { name := some "B", season := some "Fall 2024" }])
      (fun _ => false) 0 ⟨[], 0, 0⟩).isSome = true
    ∧ (epIter [{ name := some "A", season := some "Fall 2025" }] ⟨[], 0, 0⟩).attempts = 0
    ∧ epRun 1 (fun _ => []) (fun _ => false) 0 ⟨[], 0, 30⟩ = some []
    ∧ epRun 1 (fun _ => []) (fun _ => true) 0 ⟨[], 0, 0⟩ = some []
    ∧ (tdeRun (21 * missingCount
        [({ name := some "A", season := some "Fall 2025" } : TeamData)] [] + 21)
      (fun _ => [{ name := some "A", season := some "Fall 2025" }]) 0 ⟨[], 0⟩).isSome = true
    ∧ tdeRun 1 (fun _ => [])
        0 ⟨[{ name := some "A", season := some "Fall 2025" }], 3⟩
      = some [{ name := some "A", season := some "Fall 2025" }] := by
  refine ⟨?_, ?_, ?_, ?_, ?_, ?_⟩
  · exact scroll_loop_termination.1 _ _ _ (fun j r hr => hr)
  · have h := scroll_loop_termination.2.1
      [{ name := some "A", season := some "Fall 2025" }] ⟨[], 0, 0⟩ rfl
    rw [h, if_neg (by decide)]
  · exact scroll_loop_termination.2.2.1 0 _ _ 0 ⟨[], 0, 30⟩ (by decide)
  · have h := scroll_loop_termination.2.2.2.1 0 (fun _ => []) (fun _ => true) 0
      ⟨[], 0, 0⟩ (by decide) rfl
    rw [h]
    rfl
  · exact scroll_loop_termination.2.2.2.2.1 _ _ (fun j r hr => hr)
  · exact scroll_loop_termination.2.2.2.2.2 0 _ 0
      ⟨[{ name := some "A", season := some "Fall 2025" }], 3⟩ (by decide)
      (by decide) (by decide)

/-! ## Claim C9: the player-roster row parser -/

theorem takeWhile_append_all (P : Char → Bool) :
    ∀ (l1 l2 : List Char), (∀ c ∈ l1, P c = true) →
      (l1 ++ l2).takeWhile P = l1 ++ l2.takeWhile P := by
  intro l1
  induction l1 with
  | nil => intro l2 _; simp
  | cons a l ih =>
    intro l2 h
    rw [List.cons_append, List.takeWhile_cons, if_pos (h a (List.mem_cons_self _ _)),
      ih l2 (fun c hc => h c (List.mem_cons_of_mem _ hc)), List.cons_append]

theorem mem_of_mem_dropWhile (P : Char → Bool) :
    ∀ (l : List Char) (x : Char), x ∈ l.dropWhile P → x ∈ l := by
  intro l
  induction l with
  | nil => intro x hx; simp at hx
  | cons a t ih =>
    intro x hx
    rw [List.dropWhile_cons] at hx
    by_cases hpa : P a = true
    · rw [if_pos hpa] at hx
      exact List.mem_cons_of_mem _ (ih x hx)
    · rw [if_neg hpa] at hx
      exact hx

theorem mem_of_mem_stripL (l : List Char) (x : Char) (hx : x ∈ stripL l) : x ∈ l := by
  unfold stripL at hx
  rw [List.mem_reverse] at hx
  have hx2 := mem_of_mem_dropWhile _ _ _ hx
  rw [List.mem_reverse] at hx2
  exact mem_of_mem_dropWhile _ _ _ hx2

/-- `#(\d+)$`: on a string of the shape `base#digits` the member-id split
returns `base` and the digit run. -/
theorem memberIdSplit_spec (base id : List Char) (hidne : id ≠ [])
    (hiddig : ∀ c ∈ id, isDigitChar c = true) :
    memberIdSplit (base ++ '#' :: id) = some (base, id) := by
  unfold memberIdSplit
  have hrev : (base ++ '#' :: id).reverse = id.reverse ++ '#' :: base.reverse := by
    rw [List.reverse_append, List.reverse_cons]
    simp
  dsimp only
  rw [hrev]
  have htw : (id.reverse ++ '#' :: base.reverse).takeWhile isDigitChar = id.reverse := by
    rw [takeWhile_append_all isDigitChar id.reverse ('#' :: base.reverse)
      (fun c hc => hiddig c (List.mem_reverse.mp hc))]
    rw [List.takeWhile_cons, if_neg (by decide)]
    simp
  rw [htw]
  rw [if_neg (by simpa using hidne)]
  rw [List.drop_left]
  simp

theorem splitChar_no_sep (sep : Char) :
    ∀ l : List Char, (∀ c ∈ l, c ≠ sep) → splitChar sep l = [l] := by
  intro l
  induction l with
  | nil => intro _; rfl
  | cons c t ih =>
    intro h
    unfold splitChar
    rw [ih (fun x hx => h x (List.mem_cons_of_mem _ hx))]
    rw [if_neg (by simpa using h c (List.mem_cons_self _ _))]

theorem splitChar_once (sep : Char) :
    ∀ (w p : List Char), (∀ c ∈ w, c ≠ sep) → (∀ c ∈ p, c ≠ sep) →
      splitChar sep (w ++ sep :: p) = [w, p] := by
  intro w
  induction w with
  | nil =>
    intro p _ hp
    show splitChar sep (sep :: p) = [[], p]
    unfold splitChar
    rw [splitChar_no_sep sep p hp, if_pos (by simp)]
  | cons c w' ih =>
    intro p hw hp
    show splitChar sep (c :: (w' ++ sep :: p)) = [c :: w', p]
    unfold splitChar
    rw [ih p (fun x hx => hw x (List.mem_cons_of_mem _ hx)) hp]
    rw [if_neg (by simpa using hw c (List.mem_cons_self _ _))]

/-- Claim C9: on a 6-cell player-roster row whose cell 0 strips to
`base#digits` and whose cell 2 strips to `won/played` with both parts
all-digit, the parser stores the digit run as member_id and the stripped
remainder as the name, stores won and played from the split, and — both
being present with played > 0 — recomputes win_percentage as
`round(100*won/played, 1)`, overriding whatever percentage cell 3 shows. -/
theorem player_row_parser_correct
    (c0 c1 c2 c3 c4 c5 : String) (base idd w p : List Char)
    (hidne : idd ≠ []) (hiddig : ∀ c ∈ idd, isDigitChar c = true)
    (hc0 : (pyStrip c0).data = base ++ '#' :: idd)
    (hwne : w ≠ []) (hwdig : ∀ c ∈ w, isDigitChar c = true)
    (hpne : p ≠ []) (hpdig : ∀ c ∈ p, isDigitChar c = true)
    (hc2 : (pyStrip c2).data = w ++ '/' :: p)
    (hname : String.mk (stripL base) ≠ "")
    (hppos : 0 < natOfDigits p) :
    ∃ r, etExtractPlayerDataFromRow [c0, c1, c2, c3, c4, c5] = some r
      ∧ r.member_id = some (String.mk idd)
      ∧ r.name = some (String.mk (stripL base))
      ∧ r.matches_won = some (natOfDigits w)
      ∧ r.matches_played = some (natOfDigits p)
      ∧ r.win_percentage
          = some (pyRound1 (100 * (natOfDigits w : ℚ) / (natOfDigits p : ℚ))) := by
  have hc0ne : c0 ≠ "" := by
    intro h
    rw [h] at hc0
    have : ([] : List Char) = base ++ '#' :: idd := hc0
    exact absurd this.symm (by simp)
  have hc2ne : c2 ≠ "" := by
    intro h
    rw [h] at hc2
    have : ([] : List Char) = w ++ '/' :: p := hc2
    exact absurd this.symm (by simp)
  have hcont : c2.data.contains '/' = true := by
    apply List.elem_iff.mpr
    apply mem_of_mem_stripL
    show '/' ∈ (pyStrip c2).data
    rw [hc2]
    exact List.mem_append.mpr (Or.inr (List.mem_cons_self _ _))
  have hwslash : ∀ c ∈ w, c ≠ '/' := by
    intro c hc he
    have := hwdig c hc
    rw [he] at this
    exact absurd this (by decide)
  have hpslash : ∀ c ∈ p, c ≠ '/' := by
    intro c hc he
    have := hpdig c hc
    rw [he] at this
    exact absurd this (by decide)
  have hsplit : splitChar '/' (pyStrip c2).data = [w, p] := by
    rw [hc2]
    exact splitChar_once '/' w p hwslash hpslash
  have hwdigit : pyIsdigitL w = true := by
    unfold pyIsdigitL
    rw [Bool.and_eq_true]
    exact ⟨by simpa [List.isEmpty_iff] using hwne, List.all_eq_true.mpr hwdig⟩
  have hpdigit : pyIsdigitL p = true := by
    unfold pyIsdigitL
    rw [Bool.and_eq_true]
    exact ⟨by simpa [List.isEmpty_iff] using hpne, List.all_eq_true.mpr hpdig⟩
  have harith : (natOfDigits w : ℚ) / (natOfDigits p : ℚ) * 100
      = 100 * (natOfDigits w : ℚ) / (natOfDigits p : ℚ) := by ring
  have hev : etExtractPlayerDataFromRow [c0, c1, c2, c3, c4, c5] = some
      { name := some (String.mk (stripL base)), member_id := some (String.mk idd),
        skill_level := digitCellParse c1,
        matches_won := some (natOfDigits w), matches_played := some (natOfDigits p),
        win_percentage := some (pyRound1 ((natOfDigits w : ℚ) / (natOfDigits p : ℚ) * 100)),
        ppm := if c4 ≠ "" then searchFor numberAt c4.data else none,
        pa := if c5 ≠ "" then searchFor numberAt c5.data else none } := by
    unfold etExtractPlayerDataFromRow
    rw [if_neg (by simp)]
    simp only [List.getD_cons_zero, List.getD_cons_succ]
    rw [if_neg hc0ne]
    rw [hc0, memberIdSplit_spec base idd hidne hiddig]
    rw [if_pos (show (decide (c2 ≠ "") && c2.data.contains '/') = true by
      rw [Bool.and_eq_true]; exact ⟨by simpa using hc2ne, hcont⟩)]
    rw [hsplit]
    dsimp only
    rw [if_pos (show (pyIsdigitL w && pyIsdigitL p) = true from by
      rw [Bool.and_eq_true]; exact ⟨hwdigit, hpdigit⟩)]
    dsimp only
    rw [if_pos hppos, if_pos (by simpa using hname)]
  refine ⟨_, hev, rfl, rfl, rfl, rfl, ?_⟩
  show some (pyRound1 ((natOfDigits w : ℚ) / (natOfDigits p : ℚ) * 100)) = _
  rw [harith]

/-- Witness for C9 on the roster row
`["John Smith #19162437", "5", "3/7", "40.00%", "2.5", "1.8"]`: the
member id is split off, won/played are 3/7, and the recomputed
round(100*3/7, 1) overrides the displayed 40.00%. -/
theorem player_row_parser_correct_witness :
    ∃ r, etExtractPlayerDataFromRow
        ["John Smith #19162437", "5", "3/7", "40.00%", "2.5", "1.8"] = some r
      ∧ r.member_id = some "19162437"
      ∧ r.name = some "John Smith"
      ∧ r.matches_won = some 3
      ∧ r.matches_played = some 7
      ∧ r.win_percentage = some (pyRound1 (100 * (3 : ℚ) / 7)) := by
  obtain ⟨r, hr, h1, h2, h3, h4, h5⟩ := player_row_parser_correct
    "John Smith #19162437" "5" "3/7" "40.00%" "2.5" "1.8"
    "John Smith ".data "19162437".data "3".data "7".data
    (by decide) (by decide) (by decide)
    (by decide) (by decide) (by decide) (by decide)
    (by decide) (by decide) (by decide)
  refine ⟨r, hr, ?_, ?_, ?_, ?_, ?_⟩
  · rw [h1]
  · rw [h2]; decide
  · rw [h3]; decide
  · rw [h4]; decide
  · rw [h5, show natOfDigits "3".data = 3 from rfl, show natOfDigits "7".data = 7 from rfl]
    norm_num
